import Mathlib

/-!
Shallow embedding of juju/simplekv: a key-value storage abstraction with an
atomic read-modify-write (Update) primitive, implemented by several backend
adapters (in-memory map, SQL table, mongo document collection, etcd
distributed store).  Byte slices, the errgo error library, and each backend
adapter are translated from the Go source; the retry library attempt budget
(gopkg.in/retry.v1, an external dependency whose source is not part of the
repository) is modelled from the specification.
-/

set_option maxRecDepth 4000

/-- A Go byte slice: `none` models a nil slice, `some l` a non-nil slice
holding the bytes `l` (which may be empty).  Go distinguishes nil slices
from empty non-nil slices. -/
abbrev GoSlice := Option (List Nat)

/-- Timestamps (`time.Time`); `0` models the zero time `time.Time{}`. -/
abbrev Time := Nat

/-- Go: `if value == nil { value = []byte{} }` as used by the adapters to
normalize a nil slice to an empty one before storing it. -/
def goNormalize (v : GoSlice) : GoSlice :=
  match v with
  | none => some []
  | some l => some l

/-- Go `bytes.Equal`, which treats a nil slice and an empty slice alike. -/
def bytesEqual (a b : GoSlice) : Bool :=
  a.getD [] == b.getD []

/-- Model of the gopkg.in/errgo.v1 error values used throughout the source.
`prim id msg` is a root error object (errgo.New / errgo.Newf / a library
error) with an identity; `withCause c msg` is errgo.WithCausef(nil, c, msg);
`maskedKeep u c` is errgo.Mask(u, pass...) when the pass function accepted
the cause `c` of `u`; `maskedHide u` is errgo.Mask when the cause is hidden;
`note u pfx` is errgo.Notef(u, pfx). -/
inductive GoErr : Type where
  | prim (id : Nat) (msg : String)
  | withCause (c : GoErr) (msg : String)
  | maskedKeep (u : GoErr) (c : GoErr)
  | maskedHide (u : GoErr)
  | note (u : GoErr) (pfx : String)
deriving DecidableEq, Repr

/-- errgo.Cause: the explicitly recorded cause if there is one, otherwise
the error itself. -/
def errgoCause (e : GoErr) : GoErr :=
  match e with
  | .prim i m => .prim i m
  | .withCause c _ => c
  | .maskedKeep _ c => c
  | .maskedHide u => .maskedHide u
  | .note u p => .note u p

/-- The Error() text of an errgo error: a masking layer keeps the
underlying message, a note layer puts its own message in front. -/
def errMsg (e : GoErr) : String :=
  match e with
  | .prim _ m => m
  | .withCause _ m => m
  | .maskedKeep u _ => errMsg u
  | .maskedHide u => errMsg u
  | .note u p => p ++ ": " ++ errMsg u

/-- The root of the underlying-error chain, reachable by repeatedly
unwrapping the Underlying field of an errgo error. -/
def errRoot (e : GoErr) : GoErr :=
  match e with
  | .prim i m => .prim i m
  | .withCause c m => .withCause c m
  | .maskedKeep u _ => errRoot u
  | .maskedHide u => errRoot u
  | .note u _ => errRoot u

/-- errgo.Mask(err, errgo.Any): wrap, keeping the cause. -/
def maskAny (e : GoErr) : GoErr :=
  .maskedKeep e (errgoCause e)

/-- errgo.Mask(err, errgo.Is(c)): wrap, keeping the cause only when it
equals `c`. -/
def maskIs (c : GoErr) (e : GoErr) : GoErr :=
  if errgoCause e = c then .maskedKeep e c else .maskedHide e

/-- simplekv.ErrNotFound = errgo.New("not found"). -/
def ErrNotFound : GoErr := .prim 0 "not found"

/-- simplekv.ErrDuplicateKey = errgo.New("duplicate key"). -/
def ErrDuplicateKey : GoErr := .prim 1 "duplicate key"

/-- context.Canceled, the error reported by ctx.Err() after cancellation. -/
def ctxCanceledErr : GoErr := .prim 2 "context canceled"

/-- errgo.Newf("too many retry attempts trying to update key"), returned by
the mongo and etcd Update loops when the retry budget runs out without the
cancellation channel having fired. -/
def tooManyRetryErr : GoErr := .prim 3 "too many retry attempts trying to update key"

/-- simplekv.KeyNotFoundError: errgo.WithCausef(nil, ErrNotFound,
"key %s not found", key). -/
def keyNotFoundError (key : String) : GoErr :=
  .withCause ErrNotFound ("key " ++ key ++ " not found")

theorem errgoCause_maskAny (e : GoErr) : errgoCause (maskAny e) = errgoCause e := rfl

theorem errMsg_maskAny (e : GoErr) : errMsg (maskAny e) = errMsg e := rfl

/-- The transform argument of Update: Go
`getVal func(old []byte) ([]byte, error)`. -/
abbrev Transform := GoSlice → Except GoErr GoSlice

namespace Memkv

/-- The in-memory adapter state: the Go map `data map[string][]byte` of the
memsimplekv kvStore, as an association list with at most one binding per
key. -/
abbrev MemState := List (String × GoSlice)

/-- Go map lookup `v, ok := m[k]`: `none` when the key is absent. -/
def lookup : MemState → String → Option GoSlice
  | [], _ => none
  | (k, v) :: rest, key => if k = key then some v else lookup rest key

/-- Go map assignment `m[k] = v`. -/
def mapSet : MemState → String → GoSlice → MemState
  | [], key, v => [(key, v)]
  | (k, w) :: rest, key, v =>
      if k = key then (key, v) :: rest else (k, w) :: mapSet rest key v

/-- Go map indexing `m[k]` without the ok flag: yields the zero value (a
nil slice) when the key is absent.  This is the old value that
memsimplekv.Update hands to the transform. -/
def memOld (st : MemState) (key : String) : GoSlice :=
  (lookup st key).getD none

/-- memsimplekv.NewStore: `data: make(map[string][]byte)`. -/
def memNew : MemState := []

/-- memsimplekv kvStore.Get: look the key up; a missing key yields
simplekv.KeyNotFoundError.  The state component records that Get writes
nothing. -/
def memGet (st : MemState) (key : String) : Except GoErr GoSlice × MemState :=
  match lookup st key with
  | none => (.error (keyNotFoundError key), st)
  | some v => (.ok v, st)

/-- memsimplekv kvStore.Set: normalize a nil value to an empty slice and
store it.  The expire argument is ignored by this adapter (the Go method
binds it to the blank identifier). -/
def memSet (st : MemState) (key : String) (value : GoSlice) (_expire : Time) :
    Except GoErr Unit × MemState :=
  (.ok (), mapSet st key (goNormalize value))

/-- memsimplekv kvStore.Update: call getVal on the map index of the key
(a nil slice when absent), propagate its error through
errgo.Mask(err, errgo.Any), otherwise normalize and store the new value.
The expire argument is ignored by this adapter. -/
def memUpdate (st : MemState) (key : String) (_expire : Time) (getVal : Transform) :
    Except GoErr Unit × MemState :=
  match getVal (memOld st key) with
  | .error e => (.error (maskAny e), st)
  | .ok newVal => (.ok (), mapSet st key (goNormalize newVal))

/-- The transform that simplekv.SetKeyOnce passes to Update: fail with an
ErrDuplicateKey cause when the old value is not nil, otherwise return the
value unchanged. -/
def setKeyOnceXform (key : String) (value : GoSlice) : Transform :=
  fun old =>
    if old ≠ none then
      .error (.withCause ErrDuplicateKey ("key " ++ key ++ " already exists"))
    else
      .ok value

/-- simplekv.SetKeyOnce applied to the in-memory store: Update with the
once transform, the result masked keeping only an ErrDuplicateKey cause. -/
def memSetKeyOnce (st : MemState) (key : String) (value : GoSlice) (expire : Time) :
    Except GoErr Unit × MemState :=
  let r := memUpdate st key expire (setKeyOnceXform key value)
  (match r.1 with
   | .ok _ => .ok ()
   | .error e => .error (maskIs ErrDuplicateKey e), r.2)

/-- The in-memory store invariant: every value held in the map is a
non-nil slice. -/
def memWF (st : MemState) : Prop := ∀ p ∈ st, p.2 ≠ none

theorem lookup_mapSet (st : MemState) (k k' : String) (v : GoSlice) :
    lookup (mapSet st k v) k' = if k = k' then some v else lookup st k' := by
  induction st with
  | nil => by_cases h : k = k' <;> simp [mapSet, lookup, h]
  | cons p rest ih =>
      obtain ⟨k₀, v₀⟩ := p
      by_cases h0 : k₀ = k
      · by_cases h1 : k = k' <;> simp [mapSet, lookup, h0, h1]
      · by_cases h1 : k₀ = k' <;> by_cases h2 : k = k'
        · exact absurd (h1.trans h2.symm) h0
        · have h2' : ¬ k' = k := fun h => h2 h.symm
          simp [mapSet, lookup, h0, h1, h2, h2']
        · subst h2
          simp [mapSet, lookup, h0, h1] at ih ⊢
          exact ih
        · simp [mapSet, lookup, h0, h1, h2, ih]

theorem memWF_nil : memWF memNew := by
  intro p hp; cases hp

theorem goNormalize_ne_nil (v : GoSlice) : goNormalize v ≠ none := by
  cases v <;> simp [goNormalize]

theorem memWF_mapSet (st : MemState) (k : String) (v : GoSlice)
    (hst : memWF st) (hv : v ≠ none) : memWF (mapSet st k v) := by
  induction st with
  | nil => intro p hp; simp [mapSet] at hp; subst hp; exact hv
  | cons q rest ih =>
      obtain ⟨k₀, v₀⟩ := q
      intro p hp
      simp only [mapSet] at hp
      by_cases h0 : k₀ = k
      · simp [h0] at hp
        rcases hp with h | h
        · subst h; exact hv
        · exact hst p (by simp [h])
      · simp [h0] at hp
        rcases hp with h | h
        · subst h; exact hst (k₀, v₀) (by simp)
        · exact ih (fun q hq => hst q (by simp [hq])) p h

theorem mem_set_get (st : MemState) (k : String) (v : List Nat) (e : Time) :
    memGet (memSet st k (some v) e).2 k = (.ok (some v), (memSet st k (some v) e).2) := by
  simp [memGet, memSet, lookup_mapSet, goNormalize]

theorem mem_get_absent (st : MemState) (k : String) (h : lookup st k = none) :
    memGet st k = (.error (keyNotFoundError k), st) := by
  simp [memGet, h]

theorem mem_old_absent (st : MemState) (k : String) (h : lookup st k = none) :
    memOld st k = none := by
  simp [memOld, h]

theorem mem_old_present (st : MemState) (k : String) (v : GoSlice)
    (h : lookup st k = some v) : memOld st k = v := by
  simp [memOld, h]

theorem mem_update_err (st : MemState) (k : String) (ex : Time) (getVal : Transform)
    (e : GoErr) (h : getVal (memOld st k) = .error e) :
    memUpdate st k ex getVal = (.error (maskAny e), st) := by
  simp [memUpdate, h]

theorem mem_update_ok (st : MemState) (k : String) (ex : Time) (getVal : Transform)
    (w : GoSlice) (h : getVal (memOld st k) = .ok w) :
    memUpdate st k ex getVal = (.ok (), mapSet st k (goNormalize w)) := by
  simp [memUpdate, h]

theorem mem_old_after_set_nil (st : MemState) (k : String) (e : Time) :
    memOld (memSet st k none e).2 k = some [] := by
  simp [memOld, memSet, lookup_mapSet, goNormalize]

theorem mem_old_after_update_nil (st : MemState) (k : String) (e : Time)
    (getVal : Transform) (h : getVal (memOld st k) = .ok none) :
    memOld (memUpdate st k e getVal).2 k = some [] := by
  rw [mem_update_ok st k e getVal none h]
  simp [memOld, lookup_mapSet, goNormalize]

theorem memWF_set (st : MemState) (k : String) (v : GoSlice) (e : Time)
    (hst : memWF st) : memWF (memSet st k v e).2 :=
  memWF_mapSet st k (goNormalize v) hst (goNormalize_ne_nil v)

theorem memWF_update (st : MemState) (k : String) (e : Time) (getVal : Transform)
    (hst : memWF st) : memWF (memUpdate st k e getVal).2 := by
  unfold memUpdate
  cases h : getVal (memOld st k) with
  | error _ => exact hst
  | ok w => exact memWF_mapSet st k (goNormalize w) hst (goNormalize_ne_nil w)

theorem mem_lookup_wf_ne_nil (st : MemState) (k : String) (v : GoSlice)
    (hst : memWF st) (h : lookup st k = some v) : v ≠ none := by
  induction st with
  | nil => simp [lookup] at h
  | cons p rest ih =>
      obtain ⟨k₀, v₀⟩ := p
      by_cases h0 : k₀ = k
      · simp [lookup, h0] at h
        subst h
        exact hst (k₀, v₀) (by simp)
      · simp [lookup, h0] at h
        exact ih (fun q hq => hst q (by simp [hq])) h

theorem mem_setKeyOnce_absent (st : MemState) (k : String) (v : GoSlice) (e : Time)
    (h : lookup st k = none) :
    memSetKeyOnce st k v e = (.ok (), mapSet st k (goNormalize v)) := by
  simp [memSetKeyOnce, memUpdate, mem_old_absent st k h, setKeyOnceXform]

theorem mem_setKeyOnce_present (st : MemState) (k : String) (v w : GoSlice) (e : Time)
    (hst : memWF st) (h : lookup st k = some w) :
    memSetKeyOnce st k v e =
      (.error (.maskedKeep
        (maskAny (.withCause ErrDuplicateKey ("key " ++ k ++ " already exists")))
        ErrDuplicateKey), st) := by
  have hw : w ≠ none := mem_lookup_wf_ne_nil st k w hst h
  have hold : memOld st k = w := mem_old_present st k w h
  simp [memSetKeyOnce, memUpdate, hold, setKeyOnceXform, hw, maskIs, maskAny, errgoCause]

end Memkv

/-- Events of one Update call on a contention-retry backend: a fresh read
of the key (hit with the stored bytes, or miss), an invocation of the
transform with the old value it was handed, a successful conditional write
of the new bytes, or a detected conflict that restarts the cycle. -/
inductive UpdEv : Type where
  | readHit (v : List Nat)
  | readMiss
  | xform (old : GoSlice)
  | commit (v : List Nat)
  | conflict
deriving DecidableEq, Repr

/-- Result of a single iteration of a retry loop over engine states of
type σ: either the call finishes (result, final state, events), or the
cycle must be retried from a fresh read. -/
inductive IterRes (σ : Type) : Type where
  | done (r : Except GoErr Unit) (s : σ) (tr : List UpdEv)
  | retry (s : σ) (tr : List UpdEv)
deriving Repr

/-- The events recorded by an iteration. -/
def IterRes.trace {σ : Type} : IterRes σ → List UpdEv
  | .done _ _ tr => tr
  | .retry _ tr => tr

/-- The legal event traces of a compare-and-swap update loop: iterations
are blocks that begin with a fresh read, immediately followed by the
transform applied to exactly the value that read produced (the nil
sentinel after a miss); a block either ends the call (with or without a
commit) or hits a conflict, after which the next block again starts with
a fresh read.  In particular the transform is never invoked except
directly after a read, and never with a stale value. -/
inductive CasTrace : List UpdEv → Prop where
  | nil : CasTrace []
  | missEnd : CasTrace [.readMiss, .xform none]
  | missCommit (w : List Nat) : CasTrace [.readMiss, .xform none, .commit w]
  | missConflict (tr : List UpdEv) (h : CasTrace tr) :
      CasTrace (.readMiss :: .xform none :: .conflict :: tr)
  | hitEnd (v : List Nat) : CasTrace [.readHit v, .xform (some v)]
  | hitCommit (v w : List Nat) : CasTrace [.readHit v, .xform (some v), .commit w]
  | hitConflict (v : List Nat) (tr : List UpdEv) (h : CasTrace tr) :
      CasTrace (.readHit v :: .xform (some v) :: .conflict :: tr)

namespace Mgokv

/-- The mongo collection used by mgosimplekv, restricted to the kvDoc
documents the adapter stores: _id (the key), value (bytes) and expire,
with _id unique.  Note on the source: the Go struct tag on the Value
field is malformed (an unterminated quote), so Go tag parsing yields no
tag and mgo falls back to the lowercased field name "value", which is the
field name the Set and Update queries use. -/
abbrev MgoColl := List (String × List Nat × Time)

/-- coll.FindId / coll.Find on _id: the value of the stored document. -/
def mgoFind : MgoColl → String → Option (List Nat)
  | [], _ => none
  | (k, v, _) :: rest, key => if k = key then some v else mgoFind rest key

/-- A $set of value and expire on the document with the given _id,
inserting it when absent (mongo upsert). -/
def collUpsert : MgoColl → String → List Nat → Time → MgoColl
  | [], key, v, e => [(key, v, e)]
  | (k, w, t) :: rest, key, v, e =>
      if k = key then (key, v, e) :: rest else (k, w, t) :: collUpsert rest key v e

/-- coll.Insert of a kvDoc: fails with a duplicate-key error (mgo.IsDup)
when a document with the same _id already exists. -/
def collInsert (c : MgoColl) (key : String) (v : List Nat) (e : Time) : Option MgoColl :=
  if mgoFind c key = none then some (collUpsert c key v e) else none

/-- coll.Update with selector {_id: key, value: oldv} and a $set of value
and expire: since _id is unique, a document matches the selector exactly
when the document stored under the key currently carries oldv; with no
match mongo reports ErrNotFound. -/
def collCondUpdate (c : MgoColl) (key : String) (oldv newv : List Nat) (e : Time) :
    Option MgoColl :=
  if mgoFind c key = some oldv then some (collUpsert c key newv e) else none

/-- mgosimplekv kvStore.Get: FindId, turning mgo.ErrNotFound into
simplekv.KeyNotFoundError.  mgo/bson decodes the value field into a
non-nil byte slice. -/
def mgoGet (c : MgoColl) (key : String) : Except GoErr GoSlice :=
  match mgoFind c key with
  | none => .error (keyNotFoundError key)
  | some v => .ok (some v)

/-- mgosimplekv kvStore.Set: UpsertId with a $set of value and expire;
mgo/bson marshals a nil byte slice as an empty binary value. -/
def mgoSet (c : MgoColl) (key : String) (value : GoSlice) (e : Time) : MgoColl :=
  collUpsert c key (value.getD []) e

/-- One iteration of mgosimplekv kvStore.Update, with the interference of
concurrent writers between the read and the write of this iteration modelled by
an arbitrary state transition f.  On a read miss the transform gets the
nil sentinel and the new value is inserted, a duplicate-key failure of the
insert meaning a concurrent insert won the race; on a hit the transform
gets the stored value, a byte-equal new value short-circuits to success
without a write, and otherwise the conditional update commits only against
a document still carrying the value that was read. -/
def mgoIter (key : String) (e : Time) (getVal : Transform) (f : MgoColl → MgoColl)
    (c : MgoColl) : IterRes MgoColl :=
  match mgoFind c key with
  | none =>
      match getVal none with
      | .error err => .done (.error (maskAny err)) (f c) [.readMiss, .xform none]
      | .ok newVal =>
          match collInsert (f c) key (newVal.getD []) e with
          | some c2 => .done (.ok ()) c2 [.readMiss, .xform none, .commit (newVal.getD [])]
          | none => .retry (f c) [.readMiss, .xform none, .conflict]
  | some v =>
      match getVal (some v) with
      | .error err => .done (.error (maskAny err)) (f c) [.readHit v, .xform (some v)]
      | .ok newVal =>
          if bytesEqual newVal (some v) then
            .done (.ok ()) (f c) [.readHit v, .xform (some v)]
          else
            match collCondUpdate (f c) key v (newVal.getD []) e with
            | some c2 => .done (.ok ()) c2 [.readHit v, .xform (some v), .commit (newVal.getD [])]
            | none => .retry (f c) [.readHit v, .xform (some v), .conflict]

/-- mgosimplekv kvStore.Update: iterate the retry cycle while the attempt
budget r.Next() grants iterations (one schedule entry per granted
iteration).  When the budget ends, r.Stopped() distinguishes cancellation
(ctx.Err() wrapped by errgo.Notef as "cannot update key") from exhaustion
(errgo.Newf "too many retry attempts trying to update key"). -/
def mgoUpdateGo (key : String) (e : Time) (getVal : Transform) :
    List (MgoColl → MgoColl) → Bool → MgoColl →
      Except GoErr Unit × MgoColl × List UpdEv
  | [], stopped, c =>
      (if stopped then .error (.note ctxCanceledErr "cannot update key")
       else .error tooManyRetryErr, c, [])
  | f :: rest, stopped, c =>
      match mgoIter key e getVal f c with
      | .done r c2 tr => (r, c2, tr)
      | .retry c2 tr =>
          let out := mgoUpdateGo key e getVal rest stopped c2
          (out.1, out.2.1, tr ++ out.2.2)

theorem mgoFind_collUpsert (c : MgoColl) (k k' : String) (v : List Nat) (e : Time) :
    mgoFind (collUpsert c k v e) k' = if k = k' then some v else mgoFind c k' := by
  induction c with
  | nil => by_cases h : k = k' <;> simp [collUpsert, mgoFind, h]
  | cons p rest ih =>
      obtain ⟨k₀, v₀, t₀⟩ := p
      by_cases h0 : k₀ = k
      · by_cases h1 : k = k' <;> simp [collUpsert, mgoFind, h0, h1]
      · by_cases h1 : k₀ = k' <;> by_cases h2 : k = k'
        · exact absurd (h1.trans h2.symm) h0
        · have h2' : ¬ k' = k := fun h => h2 h.symm
          simp [collUpsert, mgoFind, h0, h1, h2, h2']
        · subst h2
          simp [collUpsert, mgoFind, h0, h1] at ih ⊢
          exact ih
        · simp [collUpsert, mgoFind, h0, h1, h2, ih]

theorem collInsert_some_find (c : MgoColl) (k : String) (v : List Nat) (e : Time)
    (c2 : MgoColl) (h : collInsert c k v e = some c2) : mgoFind c k = none := by
  by_cases hf : mgoFind c k = none
  · exact hf
  · simp [collInsert, hf] at h

theorem collCondUpdate_some_find (c : MgoColl) (k : String) (oldv newv : List Nat)
    (e : Time) (c2 : MgoColl) (h : collCondUpdate c k oldv newv e = some c2) :
    mgoFind c k = some oldv := by
  by_cases hf : mgoFind c k = some oldv
  · exact hf
  · simp [collCondUpdate, hf] at h

/-- Every trace of the mongo Update loop is a legal compare-and-swap
trace: the transform only ever runs directly after a fresh read and
receives exactly what that read produced. -/
theorem mgoUpdateGo_casTrace (key : String) (e : Time) (getVal : Transform) :
    ∀ (sched : List (MgoColl → MgoColl)) (stopped : Bool) (c : MgoColl),
      CasTrace (mgoUpdateGo key e getVal sched stopped c).2.2 := by
  intro sched
  induction sched with
  | nil =>
      intro stopped c
      simp only [mgoUpdateGo]
      exact CasTrace.nil
  | cons f rest ih =>
      intro stopped c
      simp only [mgoUpdateGo]
      cases hf : mgoFind c key with
      | none =>
          cases hg : getVal none with
          | error err => simp [mgoIter, hf, hg]; exact CasTrace.missEnd
          | ok newVal =>
              cases hi : collInsert (f c) key (newVal.getD []) e with
              | some c2 => simp [mgoIter, hf, hg, hi]; exact CasTrace.missCommit _
              | none =>
                  simp [mgoIter, hf, hg, hi]
                  exact CasTrace.missConflict _ (ih stopped (f c))
      | some v =>
          cases hg : getVal (some v) with
          | error err => simp [mgoIter, hf, hg]; exact CasTrace.hitEnd v
          | ok newVal =>
              by_cases hb : bytesEqual newVal (some v)
              · simp [mgoIter, hf, hg, hb]; exact CasTrace.hitEnd v
              · cases hu : collCondUpdate (f c) key v (newVal.getD []) e with
                | some c2 => simp [mgoIter, hf, hg, hb, hu]; exact CasTrace.hitCommit v _
                | none =>
                    simp [mgoIter, hf, hg, hb, hu]
                    exact CasTrace.hitConflict v _ (ih stopped (f c))

/-- If an iteration of the mongo Update loop commits a write, the value
stored under the key at write time (after the interference f) is exactly
the value observed by the read of that iteration: a concurrent change makes
the insert fail as a duplicate or leaves the conditional update without a
matching document, so nothing is committed. -/
theorem mgoIter_commit_unchanged (key : String) (e : Time) (getVal : Transform)
    (f : MgoColl → MgoColl) (c : MgoColl) (w : List Nat)
    (h : UpdEv.commit w ∈ (mgoIter key e getVal f c).trace) :
    mgoFind (f c) key = mgoFind c key := by
  cases hf : mgoFind c key with
  | none =>
      cases hg : getVal none with
      | error err => simp [mgoIter, hf, hg, IterRes.trace] at h
      | ok newVal =>
          cases hi : collInsert (f c) key (newVal.getD []) e with
          | some c2 =>
              simp [collInsert_some_find (f c) key (newVal.getD []) e c2 hi, hf]
          | none => simp [mgoIter, hf, hg, hi, IterRes.trace] at h
  | some v =>
      cases hg : getVal (some v) with
      | error err => simp [mgoIter, hf, hg, IterRes.trace] at h
      | ok newVal =>
          by_cases hb : bytesEqual newVal (some v)
          · simp [mgoIter, hf, hg, hb, IterRes.trace] at h
          · cases hu : collCondUpdate (f c) key v (newVal.getD []) e with
            | some c2 =>
                simp [collCondUpdate_some_find (f c) key v (newVal.getD []) e c2 hu, hf]
            | none => simp [mgoIter, hf, hg, hb, hu, IterRes.trace] at h

/-- A transform error ends the mongo Update call at once: the result is
that error masked with its cause kept, no retry is consumed, and the
adapter performs no write of its own. -/
theorem mgoUpdateGo_xform_err (key : String) (e : Time) (ef : GoSlice → GoErr)
    (f : MgoColl → MgoColl) (rest : List (MgoColl → MgoColl)) (stopped : Bool)
    (c : MgoColl) :
    (mgoUpdateGo key e (fun old => .error (ef old)) (f :: rest) stopped c).1 =
        .error (maskAny (ef (mgoFind c key))) ∧
      (mgoUpdateGo key e (fun old => .error (ef old)) (f :: rest) stopped c).2.1 = f c := by
  cases hf : mgoFind c key with
  | none => simp [mgoUpdateGo, mgoIter, hf]
  | some v => simp [mgoUpdateGo, mgoIter, hf]

theorem append_singleton_ne (v : List Nat) (a : Nat) : v ++ [a] ≠ v := by
  intro h
  have hl := congrArg List.length h
  simp at hl

/-- An adversarial concurrent writer: between every read and write of the
loop it rewrites the key to a strictly longer value, so every write
attempt is contended. -/
def advWriter (key : String) : MgoColl → MgoColl :=
  fun c => collUpsert c key ((mgoFind c key).getD [] ++ [9]) 0

/-- A transform that always extends the old value, so the byte-equality
short-circuit never fires. -/
def advXform : Transform := fun old => .ok (some (old.getD [] ++ [1]))

theorem mgoIter_adv_retry (key : String) (c : MgoColl) :
    ∃ tr, mgoIter key 0 advXform (advWriter key) c = .retry (advWriter key c) tr := by
  cases hf : mgoFind c key with
  | none =>
      refine ⟨[.readMiss, .xform none, .conflict], ?_⟩
      have hins : collInsert (advWriter key c) key [1] 0 = none := by
        simp [collInsert, advWriter, mgoFind_collUpsert]
      simp [mgoIter, hf, advXform, hins]
  | some v =>
      refine ⟨[.readHit v, .xform (some v), .conflict], ?_⟩
      have hne : ¬ bytesEqual (some (v ++ [1])) (some v) = true := by
        simp [bytesEqual]
      have hfind : mgoFind (advWriter key c) key = some (v ++ [9]) := by
        simp [advWriter, mgoFind_collUpsert, hf]
      have hval : ¬ mgoFind (advWriter key c) key = some v := by
        rw [hfind]
        intro h
        exact absurd (Option.some_injective _ h) (append_singleton_ne v 9)
      have hcu : collCondUpdate (advWriter key c) key v (v ++ [1]) 0 = none := by
        simp [collCondUpdate, hval]
      simp [mgoIter, hf, advXform, hne, hcu]

/-- Under persistent contention the mongo Update loop consumes its whole
attempt budget and then fails: with the cancellation channel fired it
reports ctx.Err() wrapped as "cannot update key", otherwise the distinct
too-many-attempts error.  It never loops beyond the budget. -/
theorem mgoUpdateGo_adv (key : String) :
    ∀ (n : Nat) (stopped : Bool) (c : MgoColl),
      (mgoUpdateGo key 0 advXform (List.replicate n (advWriter key)) stopped c).1 =
        if stopped then .error (.note ctxCanceledErr "cannot update key")
        else .error tooManyRetryErr := by
  intro n
  induction n with
  | zero => intro stopped c; simp [mgoUpdateGo]
  | succ m ih =>
      intro stopped c
      obtain ⟨tr, htr⟩ := mgoIter_adv_retry key c
      simp [List.replicate_succ, mgoUpdateGo, htr, ih]

end Mgokv

namespace Etcdkv

/-- The etcd v2 key space as used by etcdsimplekv: a flat map from keys to
string values, each entry stamped with the index of the write that last
modified it, together with the cluster-level index.  Every write bumps the
cluster index and stamps the written entry with it.  Values are byte
strings (string(value) in Go maps a nil slice to the empty string). -/
structure EtcdState : Type where
  rev : Nat
  entries : List (String × List Nat × Nat)
deriving DecidableEq, Repr

/-- The node stored under a key: its value and its modifiedIndex. -/
def stFind : List (String × List Nat × Nat) → String → Option (List Nat × Nat)
  | [], _ => none
  | (k, v, m) :: rest, key => if k = key then some (v, m) else stFind rest key

/-- Write a value under a key, stamped with the given index. -/
def entSet : List (String × List Nat × Nat) → String → List Nat → Nat →
    List (String × List Nat × Nat)
  | [], key, v, m => [(key, v, m)]
  | (k, w, m0) :: rest, key, v, m =>
      if k = key then (key, v, m) :: rest else (k, w, m0) :: entSet rest key v m

/-- Remove a key (covers both an explicit delete and a TTL expiry done by
the engine). -/
def entDel : List (String × List Nat × Nat) → String → List (String × List Nat × Nat)
  | [], _ => []
  | (k, w, m) :: rest, key =>
      if k = key then rest else (k, w, m) :: entDel rest key

/-- The write operations concurrent clients can perform on the etcd key
space. -/
inductive EtcdOp : Type where
  | set (key : String) (v : List Nat)
  | del (key : String)
deriving DecidableEq, Repr

/-- Apply one concurrent operation: the cluster index advances and a set
stamps the entry with the new index. -/
def applyOp (s : EtcdState) : EtcdOp → EtcdState
  | .set k v => ⟨s.rev + 1, entSet s.entries k v (s.rev + 1)⟩
  | .del k => ⟨s.rev + 1, entDel s.entries k⟩

def applyOps (s : EtcdState) : List EtcdOp → EtcdState
  | [] => s
  | op :: rest => applyOps (applyOp s op) rest

/-- Engine invariant: keys are unique and no entry is stamped beyond the
cluster index. -/
def etcdWF (s : EtcdState) : Prop :=
  (s.entries.map Prod.fst).Nodup ∧ ∀ p ∈ s.entries, p.2.2 ≤ s.rev

/-- api.Set with PrevExist=PrevNoExist: succeeds only when the key is
absent, otherwise the engine answers ErrorCodeNodeExist (a conflict). -/
def setPrevNoExist (s : EtcdState) (key : String) (v : List Nat) : Option EtcdState :=
  if stFind s.entries key = none
  then some ⟨s.rev + 1, entSet s.entries key v (s.rev + 1)⟩
  else none

/-- api.Set with PrevIndex=idx: succeeds only when the key exists and its
modifiedIndex equals idx; a mismatch answers ErrorCodeTestFailed and an
absent key ErrorCodeKeyNotFound (both conflicts for isConflict). -/
def setPrevIndex (s : EtcdState) (key : String) (v : List Nat) (idx : Nat) :
    Option EtcdState :=
  match stFind s.entries key with
  | none => none
  | some (_, m) =>
      if m = idx
      then some ⟨s.rev + 1, entSet s.entries key v (s.rev + 1)⟩
      else none

/-- etcdsimplekv kvStore.Get: api.Get, mapping a key-not-found to
simplekv.KeyNotFoundError; []byte(resp.Node.Value) is a non-nil slice.
The adapter stores only leaf keys, so the directory branch
("not a single value") cannot fire in this model. -/
def etcdGet (s : EtcdState) (key : String) : Except GoErr GoSlice :=
  match stFind s.entries key with
  | none => .error (keyNotFoundError key)
  | some (v, _) => .ok (some v)

/-- etcdsimplekv kvStore.Set: an unconditional api.Set of string(value);
the TTL option derived from the expire argument only affects engine-side
garbage collection, which this model does not perform. -/
def etcdSet (s : EtcdState) (key : String) (value : GoSlice) (_expire : Time) : EtcdState :=
  ⟨s.rev + 1, entSet s.entries key (value.getD []) (s.rev + 1)⟩

/-- One iteration of etcdsimplekv kvStore.Update, with the concurrent
operations committed between the read and the write of this iteration given by
ops.  A read miss leads to a PrevNoExist insert; a hit remembers the
response index (the cluster index at read time), applies the transform to
the read value, short-circuits on byte equality, and otherwise issues a
conditional write fenced on PrevIndex.  NodeExist, TestFailed and
KeyNotFound answers to the fenced writes are conflicts and retry the
cycle. -/
def etcdIter (key : String) (getVal : Transform) (ops : List EtcdOp)
    (s : EtcdState) : IterRes EtcdState :=
  match stFind s.entries key with
  | none =>
      match getVal none with
      | .error err => .done (.error (maskAny err)) (applyOps s ops) [.readMiss, .xform none]
      | .ok newVal =>
          match setPrevNoExist (applyOps s ops) key (newVal.getD []) with
          | some s3 =>
              .done (.ok ()) s3 [.readMiss, .xform none, .commit (newVal.getD [])]
          | none => .retry (applyOps s ops) [.readMiss, .xform none, .conflict]
  | some (v, _) =>
      match getVal (some v) with
      | .error err =>
          .done (.error (maskAny err)) (applyOps s ops) [.readHit v, .xform (some v)]
      | .ok newVal =>
          if bytesEqual newVal (some v) then
            .done (.ok ()) (applyOps s ops) [.readHit v, .xform (some v)]
          else
            match setPrevIndex (applyOps s ops) key (newVal.getD []) s.rev with
            | some s3 =>
                .done (.ok ()) s3 [.readHit v, .xform (some v), .commit (newVal.getD [])]
            | none => .retry (applyOps s ops) [.readHit v, .xform (some v), .conflict]

/-- etcdsimplekv kvStore.Update: the same retry-loop shell as the mongo
adapter, ending in the wrapped cancellation error or the distinct
too-many-attempts error when the budget runs out. -/
def etcdUpdateGo (key : String) (getVal : Transform) :
    List (List EtcdOp) → Bool → EtcdState →
      Except GoErr Unit × EtcdState × List UpdEv
  | [], stopped, s =>
      (if stopped then .error (.note ctxCanceledErr "cannot update key")
       else .error tooManyRetryErr, s, [])
  | ops :: rest, stopped, s =>
      match etcdIter key getVal ops s with
      | .done r s2 tr => (r, s2, tr)
      | .retry s2 tr =>
          let out := etcdUpdateGo key getVal rest stopped s2
          (out.1, out.2.1, tr ++ out.2.2)

theorem stFind_entSet (l : List (String × List Nat × Nat)) (k k' : String)
    (v : List Nat) (m : Nat) :
    stFind (entSet l k v m) k' = if k = k' then some (v, m) else stFind l k' := by
  induction l with
  | nil => by_cases h : k = k' <;> simp [entSet, stFind, h]
  | cons p rest ih =>
      obtain ⟨k₀, v₀, m₀⟩ := p
      by_cases h0 : k₀ = k
      · by_cases h1 : k = k' <;> simp [entSet, stFind, h0, h1]
      · by_cases h1 : k₀ = k' <;> by_cases h2 : k = k'
        · exact absurd (h1.trans h2.symm) h0
        · have h2' : ¬ k' = k := fun h => h2 h.symm
          simp [entSet, stFind, h0, h1, h2, h2']
        · subst h2
          simp [entSet, stFind, h0, h1] at ih ⊢
          exact ih
        · simp [entSet, stFind, h0, h1, h2, ih]

theorem stFind_entDel (l : List (String × List Nat × Nat)) (k k' : String)
    (hne : ¬ k = k') : stFind (entDel l k) k' = stFind l k' := by
  induction l with
  | nil => simp [entDel, stFind]
  | cons p rest ih =>
      obtain ⟨k₀, v₀, m₀⟩ := p
      by_cases h0 : k₀ = k
      · subst h0
        have hne' : ¬ k₀ = k' := hne
        simp [entDel, stFind, hne']
      · by_cases h1 : k₀ = k'
        · subst h1
          simp [entDel, stFind, h0]
        · simp [entDel, stFind, h0, h1, ih]

theorem stFind_not_mem (l : List (String × List Nat × Nat)) (k : String)
    (h : k ∉ l.map Prod.fst) : stFind l k = none := by
  induction l with
  | nil => simp [stFind]
  | cons p rest ih =>
      obtain ⟨k₀, v₀, m₀⟩ := p
      have h1 : ¬ k₀ = k := by
        intro hh
        exact h (by simp [hh])
      have h2 : k ∉ rest.map Prod.fst := by
        intro hh
        exact h (by simp [hh])
      simp [stFind, h1, ih h2]

theorem entDel_sublist (l : List (String × List Nat × Nat)) (k : String) :
    List.Sublist (entDel l k) l := by
  induction l with
  | nil => simp [entDel]
  | cons p rest ih =>
      obtain ⟨k₀, v₀, m₀⟩ := p
      by_cases h0 : k₀ = k
      · simp only [entDel, if_pos h0]
        exact List.sublist_cons_of_sublist _ (List.Sublist.refl rest)
      · simp only [entDel, if_neg h0]
        exact List.Sublist.cons₂ _ ih

theorem stFind_entDel_self (l : List (String × List Nat × Nat)) (k : String)
    (hnd : (l.map Prod.fst).Nodup) : stFind (entDel l k) k = none := by
  induction l with
  | nil => simp [entDel, stFind]
  | cons p rest ih =>
      obtain ⟨k₀, v₀, m₀⟩ := p
      simp only [List.map_cons, List.nodup_cons] at hnd
      by_cases h0 : k₀ = k
      · subst h0
        simp only [entDel, if_pos rfl]
        exact stFind_not_mem rest k₀ hnd.1
      · simp only [entDel, if_neg h0]
        simp [stFind, h0, ih hnd.2]

theorem entSet_fst_mem (l : List (String × List Nat × Nat)) (k : String)
    (v : List Nat) (m : Nat) (x : String) (hx : x ∈ (entSet l k v m).map Prod.fst) :
    x = k ∨ x ∈ l.map Prod.fst := by
  induction l with
  | nil =>
      simp [entSet] at hx
      exact Or.inl hx
  | cons p rest ih =>
      obtain ⟨k₀, v₀, m₀⟩ := p
      by_cases h0 : k₀ = k
      · simp only [entSet, if_pos h0, List.map_cons, List.mem_cons] at hx
        rcases hx with h | h
        · exact Or.inl h
        · exact Or.inr (List.mem_cons_of_mem _ h)
      · simp only [entSet, if_neg h0, List.map_cons, List.mem_cons] at hx
        rcases hx with h | h
        · subst h
          exact Or.inr (by simp)
        · rcases ih h with h1 | h1
          · exact Or.inl h1
          · exact Or.inr (List.mem_cons_of_mem _ h1)

theorem entSet_nodup (l : List (String × List Nat × Nat)) (k : String)
    (v : List Nat) (m : Nat) (hnd : (l.map Prod.fst).Nodup) :
    ((entSet l k v m).map Prod.fst).Nodup := by
  induction l with
  | nil => simp [entSet]
  | cons p rest ih =>
      obtain ⟨k₀, v₀, m₀⟩ := p
      simp only [List.map_cons, List.nodup_cons] at hnd
      by_cases h0 : k₀ = k
      · subst h0
        have he : entSet ((k₀, v₀, m₀) :: rest) k₀ v m = (k₀, v, m) :: rest := by
          simp [entSet]
        rw [he, List.map_cons, List.nodup_cons]
        exact hnd
      · simp only [entSet, if_neg h0, List.map_cons, List.nodup_cons]
        refine ⟨?_, ih hnd.2⟩
        intro hx
        rcases entSet_fst_mem rest k v m k₀ hx with h | h
        · exact h0 h
        · exact hnd.1 h

theorem applyOp_rev (s : EtcdState) (op : EtcdOp) : (applyOp s op).rev = s.rev + 1 := by
  cases op <;> rfl

theorem applyOps_rev_le (ops : List EtcdOp) : ∀ s : EtcdState,
    s.rev ≤ (applyOps s ops).rev := by
  induction ops with
  | nil => intro s; exact Nat.le_refl _
  | cons op rest ih =>
      intro s
      have h1 : s.rev ≤ (applyOp s op).rev := by rw [applyOp_rev]; exact Nat.le_succ _
      exact Nat.le_trans h1 (ih (applyOp s op))

theorem entSet_stamp_le (l : List (String × List Nat × Nat)) (k : String)
    (v : List Nat) (n : Nat) (hl : ∀ p ∈ l, p.2.2 ≤ n) :
    ∀ p ∈ entSet l k v (n + 1), p.2.2 ≤ n + 1 := by
  induction l with
  | nil =>
      intro p hp
      simp [entSet] at hp
      subst hp
      exact Nat.le_refl _
  | cons q rest ih =>
      obtain ⟨k₀, v₀, m₀⟩ := q
      intro p hp
      simp only [entSet] at hp
      by_cases h0 : k₀ = k
      · simp [h0] at hp
        rcases hp with h | h
        · subst h; exact Nat.le_refl _
        · exact Nat.le_trans (hl p (by simp [h])) (Nat.le_succ _)
      · simp [h0] at hp
        rcases hp with h | h
        · subst h
          exact Nat.le_trans (hl (k₀, v₀, m₀) (by simp)) (Nat.le_succ _)
        · exact ih (fun q hq => hl q (by simp [hq])) p h

theorem etcdWF_applyOp (s : EtcdState) (op : EtcdOp) (hs : etcdWF s) :
    etcdWF (applyOp s op) := by
  obtain ⟨hnd, hst⟩ := hs
  cases op with
  | set k v =>
      exact ⟨entSet_nodup s.entries k v (s.rev + 1) hnd,
        entSet_stamp_le s.entries k v s.rev hst⟩
  | del k =>
      have hsub := entDel_sublist s.entries k
      refine ⟨List.Nodup.sublist (List.Sublist.map Prod.fst hsub) hnd, ?_⟩
      intro p hp
      exact Nat.le_trans (hst p (hsub.subset hp)) (Nat.le_succ _)

theorem etcdWF_applyOps (ops : List EtcdOp) : ∀ s : EtcdState, etcdWF s →
    etcdWF (applyOps s ops) := by
  induction ops with
  | nil => intro s hs; exact hs
  | cons op rest ih => intro s hs; exact ih (applyOp s op) (etcdWF_applyOp s op hs)

/-- An entry whose stamp does not exceed the cluster index observed at the
read has not been touched by any operation committed since the read:
every such operation stamps strictly beyond that index. -/
theorem applyOps_untouched (ops : List EtcdOp) : ∀ (s : EtcdState) (key : String)
    (v : List Nat) (m : Nat), etcdWF s →
    stFind (applyOps s ops).entries key = some (v, m) → m ≤ s.rev →
      stFind s.entries key = some (v, m) := by
  induction ops with
  | nil => intro s key v m _ h _; exact h
  | cons op rest ih =>
      intro s key v m hwf h hm
      have hrec := ih (applyOp s op) key v m (etcdWF_applyOp s op hwf) h
        (Nat.le_trans hm (by rw [applyOp_rev]; exact Nat.le_succ _))
      cases op with
      | set k w =>
          by_cases hk : k = key
          · subst hk
            rw [show (applyOp s (EtcdOp.set k w)).entries
                  = entSet s.entries k w (s.rev + 1) from rfl] at hrec
            rw [stFind_entSet] at hrec
            simp at hrec
            obtain ⟨-, hm2⟩ := hrec
            omega
          · rw [show (applyOp s (EtcdOp.set k w)).entries
                  = entSet s.entries k w (s.rev + 1) from rfl] at hrec
            rw [stFind_entSet, if_neg hk] at hrec
            exact hrec
      | del k =>
          by_cases hk : k = key
          · subst hk
            rw [show (applyOp s (EtcdOp.del k)).entries = entDel s.entries k from rfl] at hrec
            rw [stFind_entDel_self s.entries k hwf.1] at hrec
            cases hrec
          · rw [show (applyOp s (EtcdOp.del k)).entries = entDel s.entries k from rfl,
                stFind_entDel _ _ _ hk] at hrec
            exact hrec

theorem setPrevNoExist_some_find (s : EtcdState) (key : String) (v : List Nat)
    (s2 : EtcdState) (h : setPrevNoExist s key v = some s2) :
    stFind s.entries key = none := by
  by_cases hf : stFind s.entries key = none
  · exact hf
  · simp [setPrevNoExist, hf] at h

theorem setPrevIndex_some_find (s : EtcdState) (key : String) (v : List Nat)
    (idx : Nat) (s2 : EtcdState) (h : setPrevIndex s key v idx = some s2) :
    ∃ w, stFind s.entries key = some (w, idx) := by
  cases hf : stFind s.entries key with
  | none => simp [setPrevIndex, hf] at h
  | some q =>
      obtain ⟨w, m⟩ := q
      by_cases hm : m = idx
      · subst hm
        exact ⟨w, rfl⟩
      · simp [setPrevIndex, hf, hm] at h

/-- If an iteration of the etcd Update loop commits a write, the value
stored under the key at write time equals the value observed by the
read of the iteration (both are absent on the insert path): the revision
fencing of the conditional write, together with the engine invariant,
rules out committing over a concurrently changed value. -/
theorem etcdIter_commit_unchanged (key : String) (getVal : Transform)
    (ops : List EtcdOp) (s : EtcdState) (w : List Nat) (hwf : etcdWF s)
    (h : UpdEv.commit w ∈ (etcdIter key getVal ops s).trace) :
    (stFind (applyOps s ops).entries key).map Prod.fst =
      (stFind s.entries key).map Prod.fst := by
  cases hf : stFind s.entries key with
  | none =>
      cases hg : getVal none with
      | error err => simp [etcdIter, hf, hg, IterRes.trace] at h
      | ok newVal =>
          cases hi : setPrevNoExist (applyOps s ops) key (newVal.getD []) with
          | some s3 =>
              simp [setPrevNoExist_some_find _ _ _ _ hi, hf]
          | none => simp [etcdIter, hf, hg, hi, IterRes.trace] at h
  | some q =>
      obtain ⟨v, m⟩ := q
      cases hg : getVal (some v) with
      | error err => simp [etcdIter, hf, hg, IterRes.trace] at h
      | ok newVal =>
          by_cases hb : bytesEqual newVal (some v)
          · simp [etcdIter, hf, hg, hb, IterRes.trace] at h
          · cases hu : setPrevIndex (applyOps s ops) key (newVal.getD []) s.rev with
            | some s3 =>
                obtain ⟨w2, hw2⟩ := setPrevIndex_some_find _ _ _ _ _ hu
                have h2 := applyOps_untouched ops s key w2 s.rev hwf hw2 (Nat.le_refl _)
                have h3 : (some (v, m) : Option (List Nat × Nat)) = some (w2, s.rev) :=
                  hf.symm.trans h2
                simp at h3
                rw [hw2]
                simp [h3.1]
            | none => simp [etcdIter, hf, hg, hb, hu, IterRes.trace] at h

/-- Every trace of the etcd Update loop is a legal compare-and-swap
trace. -/
theorem etcdUpdateGo_casTrace (key : String) (getVal : Transform) :
    ∀ (sched : List (List EtcdOp)) (stopped : Bool) (s : EtcdState),
      CasTrace (etcdUpdateGo key getVal sched stopped s).2.2 := by
  intro sched
  induction sched with
  | nil =>
      intro stopped s
      simp only [etcdUpdateGo]
      exact CasTrace.nil
  | cons ops rest ih =>
      intro stopped s
      simp only [etcdUpdateGo]
      cases hf : stFind s.entries key with
      | none =>
          cases hg : getVal none with
          | error err => simp [etcdIter, hf, hg]; exact CasTrace.missEnd
          | ok newVal =>
              cases hi : setPrevNoExist (applyOps s ops) key (newVal.getD []) with
              | some s3 => simp [etcdIter, hf, hg, hi]; exact CasTrace.missCommit _
              | none =>
                  simp [etcdIter, hf, hg, hi]
                  exact CasTrace.missConflict _ (ih stopped (applyOps s ops))
      | some q =>
          obtain ⟨v, m⟩ := q
          cases hg : getVal (some v) with
          | error err => simp [etcdIter, hf, hg]; exact CasTrace.hitEnd v
          | ok newVal =>
              by_cases hb : bytesEqual newVal (some v)
              · simp [etcdIter, hf, hg, hb]; exact CasTrace.hitEnd v
              · cases hu : setPrevIndex (applyOps s ops) key (newVal.getD []) s.rev with
                | some s3 =>
                    simp [etcdIter, hf, hg, hb, hu]
                    exact CasTrace.hitCommit v _
                | none =>
                    simp [etcdIter, hf, hg, hb, hu]
                    exact CasTrace.hitConflict v _ (ih stopped (applyOps s ops))

/-- A transform error ends the etcd Update call at once, with the cause
kept and no write of its own. -/
theorem etcdUpdateGo_xform_err (key : String) (ef : GoSlice → GoErr)
    (ops : List EtcdOp) (rest : List (List EtcdOp)) (stopped : Bool) (s : EtcdState) :
    (etcdUpdateGo key (fun old => .error (ef old)) (ops :: rest) stopped s).1 =
        .error (maskAny (ef ((stFind s.entries key).map Prod.fst))) ∧
      (etcdUpdateGo key (fun old => .error (ef old)) (ops :: rest) stopped s).2.1 =
        applyOps s ops := by
  cases hf : stFind s.entries key with
  | none => simp [etcdUpdateGo, etcdIter, hf]
  | some q =>
      obtain ⟨v, m⟩ := q
      simp [etcdUpdateGo, etcdIter, hf]

/-- The adversarial schedule for etcd: between every read and write some
concurrent client writes the key, so the fenced writes always fail. -/
def advOps (key : String) : List EtcdOp := [.set key [0]]

theorem etcdIter_adv_retry (key : String) (s : EtcdState) :
    ∃ tr, etcdIter key Mgokv.advXform (advOps key) s =
      .retry (applyOps s (advOps key)) tr := by
  have hfind : stFind (applyOps s (advOps key)).entries key = some ([0], s.rev + 1) := by
    simp [advOps, applyOps, applyOp, stFind_entSet]
  cases hf : stFind s.entries key with
  | none =>
      refine ⟨[.readMiss, .xform none, .conflict], ?_⟩
      have hi : setPrevNoExist (applyOps s (advOps key)) key [1] = none := by
        simp [setPrevNoExist, hfind]
      simp [etcdIter, hf, Mgokv.advXform, hi]
  | some q =>
      obtain ⟨v, m⟩ := q
      refine ⟨[.readHit v, .xform (some v), .conflict], ?_⟩
      have hne : ¬ bytesEqual (some (v ++ [1])) (some v) = true := by
        simp [bytesEqual]
      have hu : setPrevIndex (applyOps s (advOps key)) key (v ++ [1]) s.rev = none := by
        simp [setPrevIndex, hfind]
      simp [etcdIter, hf, Mgokv.advXform, hne, hu]

/-- Under persistent contention the etcd Update loop consumes its whole
attempt budget and then fails with the wrapped cancellation error or the
distinct too-many-attempts error. -/
theorem etcdUpdateGo_adv (key : String) :
    ∀ (n : Nat) (stopped : Bool) (s : EtcdState),
      (etcdUpdateGo key Mgokv.advXform (List.replicate n (advOps key)) stopped s).1 =
        if stopped then .error (.note ctxCanceledErr "cannot update key")
        else .error tooManyRetryErr := by
  intro n
  induction n with
  | zero => intro stopped s; simp [etcdUpdateGo]
  | succ m ih =>
      intro stopped s
      obtain ⟨tr, htr⟩ := etcdIter_adv_retry key s
      simp [List.replicate_succ, etcdUpdateGo, htr, ih]

end Etcdkv

namespace Sqlkv

/-- The postgres table used by sqlsimplekv: key TEXT UNIQUE, value BYTEA
NOT NULL, expire TIMESTAMP WITH TIME ZONE (NULL when the zero time was
given, per the nullTime encoding). -/
abbrev SqlTable := List (String × List Nat × Option Time)

def rowFind : SqlTable → String → Option (List Nat × Option Time)
  | [], _ => none
  | (k, v, ex) :: rest, key => if k = key then some (v, ex) else rowFind rest key

/-- INSERT ... ON CONFLICT (key) DO UPDATE SET value, expire. -/
def rowSet : SqlTable → String → List Nat → Option Time → SqlTable
  | [], key, v, ex => [(key, v, ex)]
  | (k, w, ex0) :: rest, key, v, ex =>
      if k = key then (key, v, ex) :: rest else (k, w, ex0) :: rowSet rest key v ex

/-- The row-liveness condition of the SELECT templates:
expire IS NULL OR expire > now(). -/
def sqlLive (ex : Option Time) (now : Time) : Bool :=
  match ex with
  | none => true
  | some t => decide (now < t)

/-- The BEFORE INSERT statement trigger: DELETE FROM table WHERE
expire < NOW(). -/
def purgeExpired (t : SqlTable) (now : Time) : SqlTable :=
  t.filter fun r =>
    match r.2.2 with
    | none => true
    | some ex => ! decide (ex < now)

/-- The nullTime / sql.NullTime encoding of the expire argument: NULL for
the zero time. -/
def expNull (e : Time) : Option Time := if e = 0 then none else some e

/-- kvStore.get (with or without FOR UPDATE): the value of the live row
for the key, if any; no row yields sql.ErrNoRows. -/
def sqlGetRaw (t : SqlTable) (key : String) (now : Time) : Option (List Nat) :=
  match rowFind t key with
  | none => none
  | some (v, ex) => if sqlLive ex now then some v else none

/-- sqlsimplekv kvStore.Get: sql.ErrNoRows becomes KeyNotFoundError inside
get, which Get wraps with errgo.Mask(err, errgo.Is(ErrNotFound)); a found
bytea scans into a non-nil slice. -/
def sqlGet (t : SqlTable) (key : String) (now : Time) : Except GoErr GoSlice :=
  match sqlGetRaw t key now with
  | none => .error (maskIs ErrNotFound (keyNotFoundError key))
  | some v => .ok (some v)

/-- sqlsimplekv kvStore.Set: the upsert template with Update=true; the
insert trigger purges expired rows first, and the pq driver encodes a nil
byte slice as an empty (non-NULL) bytea. -/
def sqlSet (t : SqlTable) (key : String) (value : GoSlice) (e : Time) (now : Time) :
    SqlTable :=
  rowSet (purgeExpired t now) key (value.getD []) (expNull e)

/-- kvStore.set with insertOnly=true: the bare INSERT, which aborts with a
unique-constraint violation when a row for the key exists (the whole
transaction, including the purge done by the trigger, then rolls back). -/
def sqlInsertOnly (t : SqlTable) (key : String) (value : GoSlice) (e : Time)
    (now : Time) : Option SqlTable :=
  if rowFind (purgeExpired t now) key = none
  then some (rowSet (purgeExpired t now) key (value.getD []) (expNull e))
  else none

/-- The guard in kvStore.Update after a successful locked read:
`if v == nil { v = []byte{} }`. -/
def sqlNilGuard (v : GoSlice) : GoSlice := if v = none then some [] else v

/-- sqlsimplekv kvStore.Update: each iteration is one transaction.  When
the locked read finds a live row, the row lock keeps it unchanged until
commit, so the upsert needs no retry; when it finds none, the bare insert
races against concurrent inserters (one interference function per
iteration, applied between the read and the insert), and a duplicate-key
failure of the insert rolls the transaction back and retries the whole
cycle.  A transform error rolls back and is returned through
errgo.Mask(err, errgo.Any) at each of the three wrapping layers.  The Go
loop carries no attempt budget; the model returns a sentinel when the
supplied interference schedule runs out, a case no claim exercises. -/
def sqlUpdateGo (key : String) (e : Time) (now : Time) (getVal : Transform) :
    List (SqlTable → SqlTable) → SqlTable → Except GoErr Unit × SqlTable
  | [], t => (.error (.prim 99 "model: interference schedule exhausted"), t)
  | f :: rest, t =>
      match sqlGetRaw t key now with
      | some v0 =>
          match getVal (sqlNilGuard (some v0)) with
          | .error err => (.error (maskAny (maskAny (maskAny err))), f t)
          | .ok newVal => (.ok (), f (sqlSet t key newVal e now))
      | none =>
          match getVal none with
          | .error err => (.error (maskAny (maskAny (maskAny err))), f t)
          | .ok newVal =>
              match sqlInsertOnly (f t) key newVal e now with
              | some t3 => (.ok (), t3)
              | none => sqlUpdateGo key e now getVal rest (f t)

theorem rowFind_rowSet (t : SqlTable) (k k' : String) (v : List Nat) (ex : Option Time) :
    rowFind (rowSet t k v ex) k' = if k = k' then some (v, ex) else rowFind t k' := by
  induction t with
  | nil => by_cases h : k = k' <;> simp [rowSet, rowFind, h]
  | cons p rest ih =>
      obtain ⟨k₀, v₀, e₀⟩ := p
      by_cases h0 : k₀ = k
      · by_cases h1 : k = k' <;> simp [rowSet, rowFind, h0, h1]
      · by_cases h1 : k₀ = k' <;> by_cases h2 : k = k'
        · exact absurd (h1.trans h2.symm) h0
        · have h2' : ¬ k' = k := fun h => h2 h.symm
          simp [rowSet, rowFind, h0, h1, h2, h2']
        · subst h2
          simp [rowSet, rowFind, h0, h1] at ih ⊢
          exact ih
        · simp [rowSet, rowFind, h0, h1, h2, ih]

theorem sql_set_get (t : SqlTable) (k : String) (v : List Nat) (now : Time) :
    sqlGet (sqlSet t k (some v) 0 now) k now = .ok (some v) := by
  simp [sqlGet, sqlGetRaw, sqlSet, rowFind_rowSet, expNull, sqlLive]

theorem sql_get_absent (t : SqlTable) (k : String) (now : Time)
    (h : sqlGetRaw t k now = none) :
    sqlGet t k now = .error (maskIs ErrNotFound (keyNotFoundError k)) := by
  simp [sqlGet, h]

/-- The old value kvStore.Update hands to the transform: the nil sentinel
when the locked read found no live row, otherwise the read value after
the nil guard. -/
def sqlOld (t : SqlTable) (key : String) (now : Time) : GoSlice :=
  match sqlGetRaw t key now with
  | none => none
  | some v0 => sqlNilGuard (some v0)

theorem sqlOld_absent (t : SqlTable) (key : String) (now : Time)
    (h : sqlGetRaw t key now = none) : sqlOld t key now = none := by
  simp [sqlOld, h]

theorem sqlOld_present (t : SqlTable) (key : String) (now : Time) (v0 : List Nat)
    (h : sqlGetRaw t key now = some v0) : sqlOld t key now = some v0 := by
  simp [sqlOld, h, sqlNilGuard]

theorem sqlOld_after_empty (t2 : SqlTable) (key : String) (now : Time) :
    sqlOld (rowSet t2 key [] (expNull 0)) key now = some [] := by
  simp [sqlOld, sqlGetRaw, rowFind_rowSet, expNull, sqlLive, sqlNilGuard]

theorem rowFind_purge_none (t : SqlTable) (k : String) (now : Time)
    (h : rowFind t k = none) : rowFind (purgeExpired t now) k = none := by
  induction t with
  | nil => simp [purgeExpired]; exact h
  | cons p rest ih =>
      obtain ⟨k₀, v₀, e₀⟩ := p
      by_cases h0 : k₀ = k
      · simp [rowFind, h0] at h
      · simp only [rowFind, if_neg h0] at h
        simp only [purgeExpired, List.filter] at ih ⊢
        cases e₀ with
        | none => simp [rowFind, h0, ih h]
        | some ex => by_cases hex : ex < now <;> simp [rowFind, h0, hex, ih h]

theorem sql_update_xform_err (key : String) (e now : Time) (ef : GoSlice → GoErr)
    (f : SqlTable → SqlTable) (rest : List (SqlTable → SqlTable)) (t : SqlTable) :
    sqlUpdateGo key e now (fun old => .error (ef old)) (f :: rest) t =
      (.error (maskAny (maskAny (maskAny (ef (sqlOld t key now))))), f t) := by
  cases h : sqlGetRaw t key now <;> simp [sqlUpdateGo, sqlOld, h]

theorem sql_update_present (key : String) (e now : Time) (getVal : Transform)
    (f : SqlTable → SqlTable) (rest : List (SqlTable → SqlTable)) (t : SqlTable)
    (v0 : List Nat) (w : GoSlice)
    (h : sqlGetRaw t key now = some v0) (hg : getVal (sqlNilGuard (some v0)) = .ok w) :
    sqlUpdateGo key e now getVal (f :: rest) t = (.ok (), f (sqlSet t key w e now)) := by
  simp [sqlUpdateGo, h, hg]

theorem sql_update_absent_id (key : String) (e now : Time) (getVal : Transform)
    (rest : List (SqlTable → SqlTable)) (t : SqlTable) (w : GoSlice)
    (h : rowFind t key = none) (hg : getVal none = .ok w) :
    sqlUpdateGo key e now getVal (id :: rest) t =
      (.ok (), rowSet (purgeExpired t now) key (w.getD []) (expNull e)) := by
  have h2 : sqlGetRaw t key now = none := by simp [sqlGetRaw, h]
  have h3 : rowFind (purgeExpired t now) key = none := rowFind_purge_none _ _ _ h
  simp [sqlUpdateGo, h2, hg, sqlInsertOnly, h3]

end Sqlkv

namespace Retry

/-- The retry.Exponential configuration record of gopkg.in/retry.v1, with
durations in nanoseconds. -/
structure Exponential : Type where
  Initial : Nat
  Factor : Nat
  MaxDelay : Nat
  Jitter : Bool
deriving DecidableEq, Repr

/-- The strategy literal defined identically in mgosimplekv and
etcdsimplekv: Initial time.Microsecond, Factor 2,
MaxDelay 500*time.Millisecond, Jitter true. -/
def updateStrategy : Exponential :=
  { Initial := 1000, Factor := 2, MaxDelay := 500000000, Jitter := true }

/-- Modelled from the spec: the attempt timing of a retry.v1 Exponential
strategy (the retry library is an external dependency, its source is not
part of this repository).  The nominal delay before attempt i+1 is the
initial delay grown by the multiplicative factor at each retry and capped
at MaxDelay; the Jitter flag randomizes the actual wait below the nominal
delay. -/
def backoffDelay (st : Exponential) (i : Nat) : Nat :=
  min (st.Initial * st.Factor ^ i) st.MaxDelay

theorem backoffDelay_zero : backoffDelay updateStrategy 0 = 1000 := by
  simp [backoffDelay, updateStrategy]

theorem backoffDelay_succ (i : Nat) :
    backoffDelay updateStrategy (i + 1) =
      min (2 * backoffDelay updateStrategy i) 500000000 := by
  show min (1000 * 2 ^ (i + 1)) 500000000
      = min (2 * min (1000 * 2 ^ i) 500000000) 500000000
  have hp : 1000 * 2 ^ (i + 1) = 2 * (1000 * 2 ^ i) := by ring
  rw [hp]
  generalize 1000 * 2 ^ i = a
  omega

theorem backoffDelay_cap (i : Nat) : backoffDelay updateStrategy i ≤ 500000000 :=
  Nat.min_le_right _ _

end Retry

/-- C1: for every key k and byte value v, after a successful Set(k, v)
with no intervening write to k, Get(k) succeeds and returns exactly v,
in every adapter (in-memory, mongo, etcd, SQL; for SQL with no expiry
hint, so the row stays live).  The sequential state-passing of the model
is the sequentially-consistent context. -/
theorem C1_set_get_round_trip :
    (∀ (st : Memkv.MemState) (k : String) (v : List Nat) (e : Time),
      Memkv.memGet (Memkv.memSet st k (some v) e).2 k
        = (.ok (some v), (Memkv.memSet st k (some v) e).2)) ∧
    (∀ (c : Mgokv.MgoColl) (k : String) (v : List Nat) (e : Time),
      Mgokv.mgoGet (Mgokv.mgoSet c k (some v) e) k = .ok (some v)) ∧
    (∀ (s : Etcdkv.EtcdState) (k : String) (v : List Nat) (e : Time),
      Etcdkv.etcdGet (Etcdkv.etcdSet s k (some v) e) k = .ok (some v)) ∧
    (∀ (t : Sqlkv.SqlTable) (k : String) (v : List Nat) (now : Time),
      Sqlkv.sqlGet (Sqlkv.sqlSet t k (some v) 0 now) k now = .ok (some v)) := by
  refine ⟨Memkv.mem_set_get, ?_, ?_, Sqlkv.sql_set_get⟩
  · intro c k v e
    simp [Mgokv.mgoGet, Mgokv.mgoSet, Mgokv.mgoFind_collUpsert]
  · intro s k v e
    simp [Etcdkv.etcdGet, Etcdkv.etcdSet, Etcdkv.stFind_entSet]

/-- C2: on the contention-retry backends (mongo, etcd) every invocation
of the transform is immediately preceded by a fresh read whose result it
receives (CasTrace), and a new value is committed only when the stored
value of the key is unchanged between that read and the write: for mongo
the conditional update matches on the remembered value, for etcd the
revision fencing plus the engine invariant force it.  On a detected
change the cycle restarts from the read. -/
theorem C2_fresh_read_cas :
    (∀ (key : String) (e : Time) (getVal : Transform)
        (sched : List (Mgokv.MgoColl → Mgokv.MgoColl)) (stopped : Bool)
        (c : Mgokv.MgoColl),
      CasTrace (Mgokv.mgoUpdateGo key e getVal sched stopped c).2.2) ∧
    (∀ (key : String) (e : Time) (getVal : Transform) (f : Mgokv.MgoColl → Mgokv.MgoColl)
        (c : Mgokv.MgoColl) (w : List Nat),
      UpdEv.commit w ∈ (Mgokv.mgoIter key e getVal f c).trace →
        Mgokv.mgoFind (f c) key = Mgokv.mgoFind c key) ∧
    (∀ (key : String) (getVal : Transform) (sched : List (List Etcdkv.EtcdOp))
        (stopped : Bool) (s : Etcdkv.EtcdState),
      CasTrace (Etcdkv.etcdUpdateGo key getVal sched stopped s).2.2) ∧
    (∀ (key : String) (getVal : Transform) (ops : List Etcdkv.EtcdOp)
        (s : Etcdkv.EtcdState) (w : List Nat), Etcdkv.etcdWF s →
      UpdEv.commit w ∈ (Etcdkv.etcdIter key getVal ops s).trace →
        (Etcdkv.stFind (Etcdkv.applyOps s ops).entries key).map Prod.fst
          = (Etcdkv.stFind s.entries key).map Prod.fst) :=
  ⟨Mgokv.mgoUpdateGo_casTrace,
   fun key e getVal f c w h => Mgokv.mgoIter_commit_unchanged key e getVal f c w h,
   Etcdkv.etcdUpdateGo_casTrace,
   fun key getVal ops s w hwf h =>
     Etcdkv.etcdIter_commit_unchanged key getVal ops s w hwf h⟩

theorem C2_fresh_read_cas_witness :
    Mgokv.mgoFind (id ([] : Mgokv.MgoColl)) "k" = Mgokv.mgoFind [] "k" ∧
    (Etcdkv.stFind (Etcdkv.applyOps ⟨0, []⟩ []).entries "k").map Prod.fst
      = (Etcdkv.stFind (Etcdkv.EtcdState.mk 0 []).entries "k").map Prod.fst :=
  ⟨C2_fresh_read_cas.2.1 "k" 0 (fun _ => .ok (some [1])) id [] [1] (by decide),
   C2_fresh_read_cas.2.2.2 "k" (fun _ => .ok (some [1])) [] ⟨0, []⟩ [1]
     (by constructor <;> decide) (by decide)⟩

/-- C3: the document and distributed Update loops share the retry policy
Initial 1µs, Factor 2, MaxDelay 500ms, Jitter on (the delay before each
further attempt doubles and is capped at 500ms), and when the attempt
budget is exhausted while every attempt is still contended, Update
returns the distinct too-many-attempts error instead of looping on.  The
budget semantics of the external retry library is modelled from the
specification. -/
theorem C3_bounded_retry_backoff :
    Retry.updateStrategy.Initial = 1000 ∧ Retry.updateStrategy.Factor = 2 ∧
    Retry.updateStrategy.MaxDelay = 500000000 ∧ Retry.updateStrategy.Jitter = true ∧
    Retry.backoffDelay Retry.updateStrategy 0 = 1000 ∧
    (∀ i, Retry.backoffDelay Retry.updateStrategy (i + 1)
        = min (2 * Retry.backoffDelay Retry.updateStrategy i) 500000000) ∧
    (∀ i, Retry.backoffDelay Retry.updateStrategy i ≤ 500000000) ∧
    (∀ (key : String) (n : Nat) (c : Mgokv.MgoColl),
      (Mgokv.mgoUpdateGo key 0 Mgokv.advXform
          (List.replicate n (Mgokv.advWriter key)) false c).1 = .error tooManyRetryErr) ∧
    (∀ (key : String) (n : Nat) (s : Etcdkv.EtcdState),
      (Etcdkv.etcdUpdateGo key Mgokv.advXform
          (List.replicate n (Etcdkv.advOps key)) false s).1 = .error tooManyRetryErr) ∧
    errMsg tooManyRetryErr = "too many retry attempts trying to update key" := by
  refine ⟨rfl, rfl, rfl, rfl, Retry.backoffDelay_zero, Retry.backoffDelay_succ,
    Retry.backoffDelay_cap, ?_, ?_, rfl⟩
  · intro key n c
    have h := Mgokv.mgoUpdateGo_adv key n false c
    simpa using h
  · intro key n s
    have h := Etcdkv.etcdUpdateGo_adv key n false s
    simpa using h

/-- C4: Update hands the transform the nil sentinel exactly when no entry
exists, and otherwise the stored value (never nil: a stored empty value is
presented as empty bytes, and the SQL read guard turns a hypothetical nil
scan into empty bytes); the transform result is stored with nil normalized
to empty bytes, so after Set(k, nil) or after a transform returned nil a
later Update sees empty non-nil bytes as old.  Shown on the in-memory and
SQL adapters. -/
theorem C4_nil_sentinel_and_normalization :
    (∀ (st : Memkv.MemState) (k : String), Memkv.lookup st k = none →
      Memkv.memOld st k = none) ∧
    (∀ (st : Memkv.MemState) (k : String) (v : GoSlice), Memkv.memWF st →
      Memkv.lookup st k = some v → Memkv.memOld st k = v ∧ v ≠ none) ∧
    (∀ (st : Memkv.MemState) (k : String) (e : Time),
      Memkv.memOld (Memkv.memSet st k none e).2 k = some []) ∧
    (∀ (st : Memkv.MemState) (k : String) (e : Time) (getVal : Transform),
      getVal (Memkv.memOld st k) = .ok none →
      Memkv.memOld (Memkv.memUpdate st k e getVal).2 k = some []) ∧
    (∀ (st : Memkv.MemState) (k : String) (e : Time) (getVal : Transform) (w : GoSlice),
      getVal (Memkv.memOld st k) = .ok w →
      (Memkv.memUpdate st k e getVal).2 = Memkv.mapSet st k (goNormalize w)) ∧
    goNormalize none = some [] ∧
    (∀ (t : Sqlkv.SqlTable) (key : String) (now : Time),
      Sqlkv.sqlGetRaw t key now = none → Sqlkv.sqlOld t key now = none) ∧
    (∀ (t : Sqlkv.SqlTable) (key : String) (now : Time) (v0 : List Nat),
      Sqlkv.sqlGetRaw t key now = some v0 → Sqlkv.sqlOld t key now = some v0) ∧
    (∀ (t2 : Sqlkv.SqlTable) (key : String) (now : Time),
      Sqlkv.sqlOld (Sqlkv.rowSet t2 key [] (Sqlkv.expNull 0)) key now = some []) ∧
    (∀ (key : String) (e now : Time) (getVal : Transform)
        (f : Sqlkv.SqlTable → Sqlkv.SqlTable) (rest : List (Sqlkv.SqlTable → Sqlkv.SqlTable))
        (t : Sqlkv.SqlTable) (v0 : List Nat) (w : GoSlice),
      Sqlkv.sqlGetRaw t key now = some v0 →
      getVal (Sqlkv.sqlNilGuard (some v0)) = .ok w →
      Sqlkv.sqlUpdateGo key e now getVal (f :: rest) t
        = (.ok (), f (Sqlkv.sqlSet t key w e now))) := by
  refine ⟨Memkv.mem_old_absent, ?_, Memkv.mem_old_after_set_nil,
    Memkv.mem_old_after_update_nil, ?_, rfl, Sqlkv.sqlOld_absent, Sqlkv.sqlOld_present,
    Sqlkv.sqlOld_after_empty, ?_⟩
  · intro st k v hwf h
    exact ⟨Memkv.mem_old_present st k v h, Memkv.mem_lookup_wf_ne_nil st k v hwf h⟩
  · intro st k e getVal w h
    rw [Memkv.mem_update_ok st k e getVal w h]
  · intro key e now getVal f rest t v0 w h hg
    exact Sqlkv.sql_update_present key e now getVal f rest t v0 w h hg

theorem C4_nil_sentinel_and_normalization_witness :
    Memkv.memOld [] "k" = none ∧
    (Memkv.memOld [("k", some [1])] "k" = some [1] ∧ (some [1] : GoSlice) ≠ none) ∧
    Memkv.memOld (Memkv.memUpdate [] "k" 0 (fun _ => .ok none)).2 "k" = some [] ∧
    (Memkv.memUpdate [] "k" 0 (fun _ => .ok (some [2]))).2
      = Memkv.mapSet [] "k" (goNormalize (some [2])) ∧
    Sqlkv.sqlOld [] "k" 0 = none ∧
    Sqlkv.sqlOld [("k", [3], none)] "k" 0 = some [3] ∧
    Sqlkv.sqlUpdateGo "k" 0 0 (fun _ => .ok (some [7])) [id] [("k", [3], none)]
      = (.ok (), id (Sqlkv.sqlSet [("k", [3], none)] "k" (some [7]) 0 0)) :=
  ⟨C4_nil_sentinel_and_normalization.1 [] "k" (by decide),
   C4_nil_sentinel_and_normalization.2.1 [("k", some [1])] "k" (some [1])
     (by unfold Memkv.memWF; decide) (by decide),
   C4_nil_sentinel_and_normalization.2.2.2.1 [] "k" 0 (fun _ => .ok none) rfl,
   C4_nil_sentinel_and_normalization.2.2.2.2.1 [] "k" 0 (fun _ => .ok (some [2]))
     (some [2]) rfl,
   C4_nil_sentinel_and_normalization.2.2.2.2.2.2.1 [] "k" 0 (by decide),
   C4_nil_sentinel_and_normalization.2.2.2.2.2.2.2.1 [("k", [3], none)] "k" 0 [3]
     (by decide),
   C4_nil_sentinel_and_normalization.2.2.2.2.2.2.2.2.2 "k" 0 0 (fun _ => .ok (some [7]))
     id [] [("k", [3], none)] [3] (some [7]) (by decide) rfl⟩

/-- C5: a transform error makes Update fail immediately with that error,
its cause unchanged (errgo.Mask with errgo.Any preserves the cause at
every wrapping layer), no retry is attempted, and the adapter writes
nothing: the store state it returns is its input state (modulo the
modelled concurrent interference f, which is independent of this call).
Shown on the in-memory, mongo, etcd and SQL adapters. -/
theorem C5_transform_error_passthrough :
    (∀ (st : Memkv.MemState) (k : String) (ex : Time) (ef : GoSlice → GoErr),
      Memkv.memUpdate st k ex (fun old => .error (ef old))
        = (.error (maskAny (ef (Memkv.memOld st k))), st)) ∧
    (∀ (key : String) (e : Time) (ef : GoSlice → GoErr)
        (f : Mgokv.MgoColl → Mgokv.MgoColl) (rest : List (Mgokv.MgoColl → Mgokv.MgoColl))
        (stopped : Bool) (c : Mgokv.MgoColl),
      (Mgokv.mgoUpdateGo key e (fun old => .error (ef old)) (f :: rest) stopped c).1
          = .error (maskAny (ef (Mgokv.mgoFind c key))) ∧
        (Mgokv.mgoUpdateGo key e (fun old => .error (ef old)) (f :: rest) stopped c).2.1
          = f c) ∧
    (∀ (key : String) (ef : GoSlice → GoErr) (ops : List Etcdkv.EtcdOp)
        (rest : List (List Etcdkv.EtcdOp)) (stopped : Bool) (s : Etcdkv.EtcdState),
      (Etcdkv.etcdUpdateGo key (fun old => .error (ef old)) (ops :: rest) stopped s).1
          = .error (maskAny (ef ((Etcdkv.stFind s.entries key).map Prod.fst))) ∧
        (Etcdkv.etcdUpdateGo key (fun old => .error (ef old)) (ops :: rest) stopped s).2.1
          = Etcdkv.applyOps s ops) ∧
    (∀ (key : String) (e now : Time) (ef : GoSlice → GoErr)
        (f : Sqlkv.SqlTable → Sqlkv.SqlTable) (rest : List (Sqlkv.SqlTable → Sqlkv.SqlTable))
        (t : Sqlkv.SqlTable),
      Sqlkv.sqlUpdateGo key e now (fun old => .error (ef old)) (f :: rest) t
        = (.error (maskAny (maskAny (maskAny (ef (Sqlkv.sqlOld t key now))))), f t)) ∧
    (∀ e : GoErr, errgoCause (maskAny e) = errgoCause e) ∧
    (∀ e : GoErr, errgoCause (maskAny (maskAny (maskAny e))) = errgoCause e) := by
  refine ⟨?_, Mgokv.mgoUpdateGo_xform_err, Etcdkv.etcdUpdateGo_xform_err,
    Sqlkv.sql_update_xform_err, errgoCause_maskAny, fun e => rfl⟩
  intro st k ex ef
  simp [Memkv.memUpdate]

/-- C6: SetKeyOnce on an absent key writes the value (a later Get returns
it) and succeeds; on a key that already holds an entry it fails with an
error whose cause is ErrDuplicateKey and whose message is
"key <k> already exists", leaving the store unchanged. -/
theorem C6_set_key_once :
    (∀ (st : Memkv.MemState) (k : String) (v : List Nat) (e : Time),
      Memkv.lookup st k = none →
        (Memkv.memSetKeyOnce st k (some v) e).1 = .ok () ∧
        (Memkv.memGet (Memkv.memSetKeyOnce st k (some v) e).2 k).1 = .ok (some v)) ∧
    (∀ (st : Memkv.MemState) (k : String) (v w : GoSlice) (e : Time),
      Memkv.memWF st → Memkv.lookup st k = some w →
        ∃ err, Memkv.memSetKeyOnce st k v e = (.error err, st) ∧
          errgoCause err = ErrDuplicateKey ∧
          errMsg err = "key " ++ k ++ " already exists") := by
  constructor
  · intro st k v e h
    rw [Memkv.mem_setKeyOnce_absent st k (some v) e h]
    simp [Memkv.memGet, Memkv.lookup_mapSet, goNormalize]
  · intro st k v w e hwf h
    refine ⟨_, Memkv.mem_setKeyOnce_present st k v w e hwf h, rfl, rfl⟩

theorem C6_set_key_once_witness :
    ((Memkv.memSetKeyOnce [] "k" (some [5]) 0).1 = .ok () ∧
      (Memkv.memGet (Memkv.memSetKeyOnce [] "k" (some [5]) 0).2 "k").1 = .ok (some [5])) ∧
    ∃ err, Memkv.memSetKeyOnce [("k", some [1])] "k" (some [5]) 0
        = (.error err, [("k", some [1])]) ∧
      errgoCause err = ErrDuplicateKey ∧
      errMsg err = "key " ++ "k" ++ " already exists" :=
  ⟨C6_set_key_once.1 [] "k" [5] 0 (by decide),
   C6_set_key_once.2 [("k", some [1])] "k" (some [5]) (some [1]) 0
     (by unfold Memkv.memWF; decide) (by decide)⟩

/-- C7: Get on a key with no (live) entry fails with an error whose cause
is ErrNotFound and whose message is "key <k> not found" (so it contains
the key), and Get leaves the store unchanged.  Shown on all four
adapters; for SQL the hypothesis is the absence of a live, non-expired
row. -/
theorem C7_get_not_found :
    (∀ (st : Memkv.MemState) (k : String), Memkv.lookup st k = none →
      Memkv.memGet st k = (.error (keyNotFoundError k), st) ∧
      errgoCause (keyNotFoundError k) = ErrNotFound ∧
      errMsg (keyNotFoundError k) = "key " ++ k ++ " not found") ∧
    (∀ (c : Mgokv.MgoColl) (k : String), Mgokv.mgoFind c k = none →
      Mgokv.mgoGet c k = .error (keyNotFoundError k)) ∧
    (∀ (s : Etcdkv.EtcdState) (k : String), Etcdkv.stFind s.entries k = none →
      Etcdkv.etcdGet s k = .error (keyNotFoundError k)) ∧
    (∀ (t : Sqlkv.SqlTable) (k : String) (now : Time), Sqlkv.sqlGetRaw t k now = none →
      Sqlkv.sqlGet t k now = .error (maskIs ErrNotFound (keyNotFoundError k)) ∧
      errgoCause (maskIs ErrNotFound (keyNotFoundError k)) = ErrNotFound ∧
      errMsg (maskIs ErrNotFound (keyNotFoundError k)) = "key " ++ k ++ " not found") := by
  refine ⟨?_, ?_, ?_, ?_⟩
  · intro st k h
    exact ⟨Memkv.mem_get_absent st k h, rfl, rfl⟩
  · intro c k h
    simp [Mgokv.mgoGet, h]
  · intro s k h
    simp [Etcdkv.etcdGet, h]
  · intro t k now h
    refine ⟨Sqlkv.sql_get_absent t k now h, ?_, ?_⟩ <;>
      simp [maskIs, keyNotFoundError, errgoCause, errMsg]

theorem C7_get_not_found_witness :
    (Memkv.memGet [] "a" = (.error (keyNotFoundError "a"), []) ∧
      errgoCause (keyNotFoundError "a") = ErrNotFound ∧
      errMsg (keyNotFoundError "a") = "key " ++ "a" ++ " not found") ∧
    Mgokv.mgoGet [] "a" = .error (keyNotFoundError "a") ∧
    Etcdkv.etcdGet ⟨0, []⟩ "a" = .error (keyNotFoundError "a") ∧
    (Sqlkv.sqlGet [] "a" 0 = .error (maskIs ErrNotFound (keyNotFoundError "a")) ∧
      errgoCause (maskIs ErrNotFound (keyNotFoundError "a")) = ErrNotFound ∧
      errMsg (maskIs ErrNotFound (keyNotFoundError "a")) = "key " ++ "a" ++ " not found") :=
  ⟨C7_get_not_found.1 [] "a" (by decide),
   C7_get_not_found.2.1 [] "a" (by decide),
   C7_get_not_found.2.2.1 ⟨0, []⟩ "a" (by decide),
   C7_get_not_found.2.2.2 [] "a" 0 (by decide)⟩

/-- C8: when the cancellation signal ends the retry budget mid-Update on
a retry backend, Update fails with ctx.Err() wrapped by errgo.Notef as
"cannot update key": the message is "cannot update key: context canceled"
and the wrapped root of the error is the context cancellation error, which
callers can inspect. -/
theorem C8_cancellation_wrapped :
    (∀ (key : String) (e : Time) (getVal : Transform) (c : Mgokv.MgoColl),
      Mgokv.mgoUpdateGo key e getVal [] true c
        = (.error (.note ctxCanceledErr "cannot update key"), c, [])) ∧
    (∀ (key : String) (n : Nat) (c : Mgokv.MgoColl),
      (Mgokv.mgoUpdateGo key 0 Mgokv.advXform
          (List.replicate n (Mgokv.advWriter key)) true c).1
        = .error (.note ctxCanceledErr "cannot update key")) ∧
    (∀ (key : String) (getVal : Transform) (s : Etcdkv.EtcdState),
      Etcdkv.etcdUpdateGo key getVal [] true s
        = (.error (.note ctxCanceledErr "cannot update key"), s, [])) ∧
    (∀ (key : String) (n : Nat) (s : Etcdkv.EtcdState),
      (Etcdkv.etcdUpdateGo key Mgokv.advXform
          (List.replicate n (Etcdkv.advOps key)) true s).1
        = .error (.note ctxCanceledErr "cannot update key")) ∧
    errMsg (.note ctxCanceledErr "cannot update key")
      = "cannot update key: context canceled" ∧
    errRoot (.note ctxCanceledErr "cannot update key") = ctxCanceledErr := by
  refine ⟨?_, ?_, ?_, ?_, rfl, rfl⟩
  · intro key e getVal c
    simp [Mgokv.mgoUpdateGo]
  · intro key n c
    have h := Mgokv.mgoUpdateGo_adv key n true c
    simpa using h
  · intro key getVal s
    simp [Etcdkv.etcdUpdateGo]
  · intro key n s
    have h := Etcdkv.etcdUpdateGo_adv key n true s
    simpa using h

/-- C9: starting from the empty in-memory store, every value held in the
map is non-nil; Get changes nothing, and Set and Update preserve the
invariant because both replace a nil value with an empty slice before
storing.  Hence Get never returns nil for a present key and the transform
never receives nil for a present key. -/
theorem C9_mem_non_nil_invariant :
    Memkv.memWF Memkv.memNew ∧
    (∀ (st : Memkv.MemState) (k : String), (Memkv.memGet st k).2 = st) ∧
    (∀ (st : Memkv.MemState) (k : String) (v : GoSlice) (e : Time),
      Memkv.memWF st → Memkv.memWF (Memkv.memSet st k v e).2) ∧
    (∀ (st : Memkv.MemState) (k : String) (e : Time) (getVal : Transform),
      Memkv.memWF st → Memkv.memWF (Memkv.memUpdate st k e getVal).2) ∧
    (∀ (st : Memkv.MemState) (k : String) (v : GoSlice),
      Memkv.memWF st → (Memkv.memGet st k).1 = .ok v → v ≠ none) ∧
    (∀ (st : Memkv.MemState) (k : String) (v : GoSlice),
      Memkv.memWF st → Memkv.lookup st k = some v → Memkv.memOld st k ≠ none) := by
  refine ⟨Memkv.memWF_nil, ?_, Memkv.memWF_set, Memkv.memWF_update, ?_, ?_⟩
  · intro st k
    unfold Memkv.memGet
    cases Memkv.lookup st k <;> rfl
  · intro st k v hwf h
    cases hl : Memkv.lookup st k with
    | none => rw [Memkv.mem_get_absent st k hl] at h; cases h
    | some w =>
        have h2 : (Memkv.memGet st k).1 = .ok w := by simp [Memkv.memGet, hl]
        rw [h2] at h
        have hv : w = v := by injection h
        subst hv
        exact Memkv.mem_lookup_wf_ne_nil st k w hwf hl
  · intro st k v hwf h
    rw [Memkv.mem_old_present st k v h]
    exact Memkv.mem_lookup_wf_ne_nil st k v hwf h

theorem C9_mem_non_nil_invariant_witness :
    Memkv.memWF (Memkv.memSet [] "k" none 0).2 ∧
    Memkv.memWF (Memkv.memUpdate [] "k" 0 (fun _ => .ok none)).2 ∧
    (some [1] : GoSlice) ≠ none ∧
    Memkv.memOld [("k", some [1])] "k" ≠ none :=
  ⟨C9_mem_non_nil_invariant.2.2.1 [] "k" none 0 Memkv.memWF_nil,
   C9_mem_non_nil_invariant.2.2.2.1 [] "k" 0 (fun _ => .ok none) Memkv.memWF_nil,
   C9_mem_non_nil_invariant.2.2.2.2.1 [("k", some [1])] "k" (some [1])
     (by unfold Memkv.memWF; decide) rfl,
   C9_mem_non_nil_invariant.2.2.2.2.2 [("k", some [1])] "k" (some [1])
     (by unfold Memkv.memWF; decide) (by decide)⟩

/-- C10: the in-memory adapter ignores the expire argument entirely (Set
and Update give identical results and states for any two expire
timestamps), Get changes nothing, and an existing entry is never removed
by any operation: this adapter has no expiry-driven garbage collection. -/
theorem C10_mem_ignores_expire :
    (∀ (st : Memkv.MemState) (k : String) (v : GoSlice) (e₁ e₂ : Time),
      Memkv.memSet st k v e₁ = Memkv.memSet st k v e₂) ∧
    (∀ (st : Memkv.MemState) (k : String) (e₁ e₂ : Time) (getVal : Transform),
      Memkv.memUpdate st k e₁ getVal = Memkv.memUpdate st k e₂ getVal) ∧
    (∀ (st : Memkv.MemState) (k : String), (Memkv.memGet st k).2 = st) ∧
    (∀ (st : Memkv.MemState) (k k' : String) (v : GoSlice) (e : Time),
      Memkv.lookup st k' ≠ none → Memkv.lookup (Memkv.memSet st k v e).2 k' ≠ none) ∧
    (∀ (st : Memkv.MemState) (k k' : String) (e : Time) (getVal : Transform),
      Memkv.lookup st k' ≠ none →
        Memkv.lookup (Memkv.memUpdate st k e getVal).2 k' ≠ none) := by
  refine ⟨fun st k v e₁ e₂ => rfl, fun st k e₁ e₂ getVal => rfl, ?_, ?_, ?_⟩
  · intro st k
    unfold Memkv.memGet
    cases Memkv.lookup st k <;> rfl
  · intro st k k' v e h
    simp only [Memkv.memSet, Memkv.lookup_mapSet]
    by_cases hk : k = k' <;> simp [hk, h]
  · intro st k k' e getVal h
    unfold Memkv.memUpdate
    cases getVal (Memkv.memOld st k) with
    | error err => exact h
    | ok w =>
        simp only [Memkv.lookup_mapSet]
        by_cases hk : k = k' <;> simp [hk, h]

theorem C10_mem_ignores_expire_witness :
    Memkv.lookup (Memkv.memSet [("a", some [])] "b" (some [2]) 7).2 "a" ≠ none ∧
    Memkv.lookup (Memkv.memUpdate [("a", some [])] "b" 7 (fun _ => .ok none)).2 "a" ≠ none :=
  ⟨C10_mem_ignores_expire.2.2.2.1 [("a", some [])] "b" "a" (some [2]) 7 (by decide),
   C10_mem_ignores_expire.2.2.2.2 [("a", some [])] "b" "a" 7 (fun _ => .ok none)
     (by decide)⟩
